import Mathlib

/-
  Verification development for the incremental-harvesting core of the
  apify-scraper repository. Shallow embedding of:
  - minMaxDates / compare (src/src/functions.ts, lines 852-881),
  - dateRangeItemCounter (src/src/functions.ts, lines 981-1026),
  - deferred (src/src/functions.ts, lines 76-103),
  - scrollUntil loop body and helpers (src/src/functions.ts, lines 643-747),
  - the per-key ordered accumulator used by statePersistor (storage part of
    the repo; the AsyncMap implementation itself comes from the external
    async-atomic-store package and is modelled from the spec).

  Dates and timestamps are modelled as integer milliseconds; moment's
  a.diff(b) is a - b. JavaScript numbers that are only ever integer counters
  are modelled as integers; the stagnation ratios are compared over exact
  rationals (7/10, 1/5 for the literals 0.7, 0.2).
-/

namespace ApifyScraper

/-- A parsed date interval, as produced by minMaxDates: an optional lower
bound (minDate) and an optional upper bound (maxDate), in milliseconds. -/
structure MinMaxDates where
  minDate : Option ℤ
  maxDate : Option ℤ
deriving Repr, DecidableEq

/-- Embeds minMaxDates.compare: the JS body is
(minDate ? minDate.diff(base) <= 0 : true) && (maxDate ? maxDate.diff(base) >= 0 : true)
with moment diff a.diff(b) = a - b. -/
def compare (w : MinMaxDates) (t : ℤ) : Bool :=
  (match w.minDate with
   | some mn => decide (mn - t ≤ 0)
   | none => true)
  &&
  (match w.maxDate with
   | some mx => decide (mx - t ≥ 0)
   | none => true)

/-- Embeds the minMaxDates constructor: throws (modelled as none) exactly when
the JS guard (minDate && maxDate && maxDate.diff(minDate) < 0) fires; the
bounds are taken already parsed to optional millisecond values. -/
def minMaxDates (mnOpt mxOpt : Option ℤ) : Option MinMaxDates :=
  match mnOpt, mxOpt with
  | some mnv, some mxv =>
      if mxv - mnv < 0 then none else some ⟨some mnv, some mxv⟩
  | _, _ => some ⟨mnOpt, mxOpt⟩

/-- The five counters closed over by dateRangeItemCounter. -/
structure Stats where
  total : ℤ
  older : ℤ
  newer : ℤ
  outOfRange : ℤ
  empty : ℤ
deriving Repr, DecidableEq

namespace dateRangeItemCounter

/-- All counters start at 0 in the factory. -/
def init : Stats := ⟨0, 0, 0, 0, 0⟩

/-- Embeds counter.empty(predicate): if (!predicate) empty++. -/
def empty (s : Stats) (predicate : Bool) : Stats :=
  if predicate then s else { s with empty := s.empty + 1 }

/-- Embeds counter.add(value): total += value. -/
def add (s : Stats) (value : ℤ) : Stats :=
  { s with total := s.total + value }

/-- Embeds counter.time(value): outOfRange++ if !compare(value);
older++ if (maxDate?.diff(value) ?? 0) > 0; newer++ if
(minDate?.diff(value) ?? 0) > 0; returns compare(value). -/
def time (w : MinMaxDates) (s : Stats) (t : ℤ) : Stats × Bool :=
  let s1 := if compare w t then s else { s with outOfRange := s.outOfRange + 1 }
  let s2 := if (match w.maxDate with | some mx => mx - t | none => 0) > 0
            then { s1 with older := s1.older + 1 } else s1
  let s3 := if (match w.minDate with | some mn => mn - t | none => 0) > 0
            then { s2 with newer := s2.newer + 1 } else s2
  (s3, compare w t)

/-- Embeds counter.isOver():
(outOfRange > 0 && (older && total ? older / total > 0.7 : false))
|| (empty && total ? empty / total > 0.2 : false).
JS truthiness of a counter is being nonzero; the divisions are exact
rational comparisons against 7/10 and 1/5. -/
def isOver (s : Stats) : Bool :=
  (decide (s.outOfRange > 0) &&
    (if s.older ≠ 0 ∧ s.total ≠ 0
     then decide ((s.older : ℚ) / (s.total : ℚ) > 7 / 10)
     else false))
  ||
  (if s.empty ≠ 0 ∧ s.total ≠ 0
   then decide ((s.empty : ℚ) / (s.total : ℚ) > 1 / 5)
   else false)

end dateRangeItemCounter

/-- The counter states reachable through the dateRangeItemCounter API for a
fixed window, starting from the all-zero closure state. -/
inductive Reachable (w : MinMaxDates) : Stats → Prop
  | init : Reachable w dateRangeItemCounter.init
  | empty (s : Stats) (b : Bool) : Reachable w s →
      Reachable w (dateRangeItemCounter.empty s b)
  | add (s : Stats) (v : ℤ) : Reachable w s →
      Reachable w (dateRangeItemCounter.add s v)
  | time (s : Stats) (t : ℤ) : Reachable w s →
      Reachable w (dateRangeItemCounter.time w s t).1

/-- Embeds deferred: a promise settles at most once (the JS Promise executor
ignores r1/r2 calls after the first), while the closed-over resolved flag is
set by every resolve/reject call. The settlement is a value (Sum.inl) or an
error (Sum.inr). -/
structure DeferredState (V E : Type) where
  settled : Option (V ⊕ E)
  resolvedFlag : Bool
deriving Repr

namespace deferred

/-- Fresh deferred: pending promise, resolved flag false. -/
def init {V E : Type} : DeferredState V E := ⟨none, false⟩

/-- Embeds the wrapped resolve: sets resolved = true, then calls r1, which
only settles the promise if it is still pending. -/
def resolve {V E : Type} (s : DeferredState V E) (v : V) : DeferredState V E :=
  ⟨match s.settled with
   | none => some (Sum.inl v)
   | some o => some o,
   true⟩

/-- Embeds the wrapped reject: sets resolved = true, then calls r2, which
only settles the promise if it is still pending. -/
def reject {V E : Type} (s : DeferredState V E) (e : E) : DeferredState V E :=
  ⟨match s.settled with
   | none => some (Sum.inr e)
   | some o => some o,
   true⟩

/-- Embeds the resolved getter. -/
def resolved {V E : Type} (s : DeferredState V E) : Bool := s.resolvedFlag

end deferred

/-- Embeds scrollUntil.isChanging: null/undefined samples report false;
otherwise every element of the histogram must differ from the sample. -/
def isChanging (histogram : List ℕ) : Option ℕ → Bool
  | none => false
  | some num => histogram.all (fun val => num != val)

/-- JS Set.add: appends the value if it is not already a member. -/
def setAdd (l : List ℕ) (n : ℕ) : List ℕ :=
  if n ∈ l then l else l ++ [n]

/-- One signal sample inside the scrollUntil loop body: compute the changed
flag against the pre-insertion histogram, then insert only truthy (non-null,
nonzero) values, mirroring
const c = isChanging(hist, v); if (v) { hist.add(v) }. -/
def sampleSignal (histogram : List ℕ) (v : Option ℕ) : Bool × List ℕ :=
  (isChanging histogram v,
   match v with
   | some n => if n ≠ 0 then setAdd histogram n else histogram
   | none => histogram)

/-- The object passed to the caller-supplied maybeStop predicate. -/
structure StopParam where
  count : ℕ
  scrollChanged : Bool
  bodyChanged : Bool
  heightSize : ℕ
  scrollSize : ℕ
deriving Repr

/-- Embeds scrollUntil.shouldContinue: if there are selectors and one is
found, stop; else if maybeStop is supplied and returns true, stop; else
continue. The found flag is the session's answer to the selector probe. -/
def shouldContinue (hasSelectors found : Bool)
    (maybeStop : Option (StopParam → Bool)) (p : StopParam) : Bool :=
  if hasSelectors && found then false
  else
    match maybeStop with
    | some ms => !(ms p)
    | none => true

/-- The per-iteration environment the live session supplies to the loop:
the doScroll gate's result, the two sampled signals (null when the probe
yields null/undefined), and the stop-marker probe's result. -/
structure ScrollEnv where
  doScroll : Bool
  lastScroll : Option ℕ
  bodyHeight : Option ℕ
  foundSelectors : Bool
deriving Repr

/-- scrollUntil loop state: the two histograms, the iteration counter, the
halted flag (the break), and a ghost counter of how many times the stop
condition (shouldContinue) was consulted. -/
structure ScrollState where
  scrolls : List ℕ
  heights : List ℕ
  count : ℕ
  halted : Bool
  stopChecks : ℕ
deriving Repr

/-- The loop state at entry of scrollUntil. -/
def scrollInit : ScrollState := ⟨[], [], 0, false, 0⟩

/-- One iteration of the scrollUntil while(true) body: nothing happens unless
doScroll() returns true; then the position signal is sampled and inserted,
then the size signal, then shouldContinue is consulted with the post-insert
histogram sizes and the pre-increment count; continuing increments count,
stopping sets halted. -/
def scrollStep (hasSelectors : Bool) (maybeStop : Option (StopParam → Bool))
    (env : ScrollEnv) (s : ScrollState) : ScrollState :=
  if s.halted then s
  else if env.doScroll then
    let ps := sampleSignal s.scrolls env.lastScroll
    let bs := sampleSignal s.heights env.bodyHeight
    let cont := shouldContinue hasSelectors env.foundSelectors maybeStop
      ⟨s.count, ps.1, bs.1, bs.2.length, ps.2.length⟩
    ⟨ps.2, bs.2, if cont then s.count + 1 else s.count, !cont, s.stopChecks + 1⟩
  else s

/-- Iterate the scrollUntil body over a finite schedule of environments. -/
def scrollRun (hasSelectors : Bool) (maybeStop : Option (StopParam → Bool))
    (envs : List ScrollEnv) (s : ScrollState) : ScrollState :=
  envs.foldl (fun st e => scrollStep hasSelectors maybeStop e st) s

/-- Modelled from the spec: the per-key serialized append of the
ConcurrentKeyedAccumulator (AsyncMap of the external async-atomic-store
package, wrapped by statePersistor; the package's source is not part of this
repository). One append applies its merge function to the current value of
its key (absent keys read as none) and stores the result; keys other than
the call's key are untouched. -/
def applyAppend {K V : Type} [DecidableEq K] (m : K → Option V)
    (c : K × (Option V → V)) : K → Option V :=
  fun k => if k = c.1 then some (c.2 (m c.1)) else m k

/-- Modelled from the spec: executing a finite schedule of append calls one
at a time (single-threaded cooperative concurrency: an interleaving is some
total order of the issued calls). -/
def runAppends {K V : Type} [DecidableEq K] (m : K → Option V)
    (calls : List (K × (Option V → V))) : K → Option V :=
  calls.foldl applyAppend m

/-- The merge functions of the calls that target key k, in list order. -/
def perKey {K V : Type} [DecidableEq K]
    (calls : List (K × (Option V → V))) (k : K) : List (Option V → V) :=
  (calls.filter (fun c => decide (c.1 = k))).map Prod.snd

/-- Applying a sequence of merge functions sequentially to one slot. -/
def seqApply {V : Type} (fs : List (Option V → V)) (v : Option V) : Option V :=
  fs.foldl (fun acc f => some (f acc)) v

/- concrete instances used by the witnesses -/

/-- Example merge: overwrite with 1. -/
def mergeA : Option ℕ → ℕ := fun _ => 1

/-- Example merge: add 10 to the current value (0 when absent). -/
def mergeB : Option ℕ → ℕ := fun v => v.getD 0 + 10

/-- Example merge: overwrite with 2. -/
def mergeC : Option ℕ → ℕ := fun _ => 2

/-- A call-order list of appends over the two keys false and true. -/
def callsEx : List (Bool × (Option ℕ → ℕ)) :=
  [(false, mergeA), (true, mergeC), (false, mergeB)]

/-- An interleaving of callsEx that reorders across keys but keeps each
key's calls in FIFO order. -/
def schedEx : List (Bool × (Option ℕ → ℕ)) :=
  [(true, mergeC), (false, mergeA), (false, mergeB)]

/-- The initially empty accumulator map. -/
def emptyMap : Bool → Option ℕ := fun _ => none

/-- An iteration environment whose doScroll gate answers false. -/
def idleEnv : ScrollEnv := ⟨false, none, none, false⟩

/-- A window is well formed when, whenever both bounds are present, the lower
bound does not exceed the upper bound (the invariant the minMaxDates
constructor enforces). -/
def wellFormed (w : MinMaxDates) : Prop :=
  ∀ mn mx, w.minDate = some mn → w.maxDate = some mx → mn ≤ mx

/-- Pointwise order on the five counters. -/
def statsLe (a b : Stats) : Prop :=
  a.total ≤ b.total ∧ a.older ≤ b.older ∧ a.newer ≤ b.newer ∧
  a.outOfRange ≤ b.outOfRange ∧ a.empty ≤ b.empty

/-- C6: construction of a range window fails (throws) exactly when both
bounds are present and the lower bound is strictly greater than the upper
bound; otherwise it succeeds. -/
theorem minMaxDates_fails_iff (mnOpt mxOpt : Option ℤ) :
    minMaxDates mnOpt mxOpt = none ↔
      ∃ mnv mxv, mnOpt = some mnv ∧ mxOpt = some mxv ∧ mxv < mnv := by
  cases mnOpt with
  | none => simp [minMaxDates]
  | some mnv =>
    cases mxOpt with
    | none => simp [minMaxDates]
    | some mxv =>
      simp only [minMaxDates]
      split_ifs with h
      · simp only [true_iff]
        exact ⟨mnv, mxv, rfl, rfl, by omega⟩
      · constructor
        · intro hc
          exact absurd hc (by simp)
        · rintro ⟨a, b, ha, hb, hlt⟩
          injection ha with ha
          injection hb with hb
          omega

/-- C5: compare is true iff the timestamp lies within the window, each
missing bound being unconstrained, and compare holds at either boundary of a
well-formed window (inclusive at both ends). -/
theorem compare_window_iff (w : MinMaxDates) (t : ℤ) (hw : wellFormed w) :
    (compare w t = true ↔
      ((∀ mn, w.minDate = some mn → mn ≤ t) ∧
       (∀ mx, w.maxDate = some mx → t ≤ mx))) ∧
    (∀ b, w.minDate = some b → compare w b = true) ∧
    (∀ b, w.maxDate = some b → compare w b = true) := by
  obtain ⟨mno, mxo⟩ := w
  refine ⟨?_, ?_, ?_⟩
  · cases mno <;> cases mxo <;> simp [compare] <;> omega
  · intro b hb
    simp only at hb
    subst hb
    cases mxo with
    | none => simp [compare]
    | some mx =>
      have hbx : b ≤ mx := hw b mx rfl rfl
      simp [compare]
      omega
  · intro b hb
    simp only at hb
    subst hb
    cases mno with
    | none => simp [compare]
    | some mn =>
      have hbx : mn ≤ b := hw mn b rfl rfl
      simp [compare]
      omega

/-- C5 witness: the window [1, 5] is well formed; compare classifies 3 as in
range and holds at both boundaries. -/
theorem compare_window_iff_witness :
    (compare ⟨some 1, some 5⟩ 3 = true ↔
      ((∀ mn, (MinMaxDates.mk (some 1) (some 5)).minDate = some mn → mn ≤ 3) ∧
       (∀ mx, (MinMaxDates.mk (some 1) (some 5)).maxDate = some mx → 3 ≤ mx))) ∧
    (∀ b, (MinMaxDates.mk (some 1) (some 5)).minDate = some b →
      compare ⟨some 1, some 5⟩ b = true) ∧
    (∀ b, (MinMaxDates.mk (some 1) (some 5)).maxDate = some b →
      compare ⟨some 1, some 5⟩ b = true) :=
  compare_window_iff ⟨some 1, some 5⟩ 3
    (by intro mn mx hmn hmx; injection hmn with hmn; injection hmx with hmx; omega)

/-- C3 counterexample: for the window with lower bound 0 and no upper bound
and the timestamp 5, the lower bound is defined and strictly earlier than
the timestamp, yet recordTimestamp (time) leaves the newer counter
unchanged, contradicting the claim that it is incremented exactly then. -/
theorem time_newer_counterexample :
    (MinMaxDates.mk (some 0) none).minDate = some 0 ∧ (0 : ℤ) < 5 ∧
    (dateRangeItemCounter.time ⟨some 0, none⟩ dateRangeItemCounter.init 5).1.newer
      = dateRangeItemCounter.init.newer := by
  refine ⟨rfl, by omega, ?_⟩
  decide

/-- C3 amended: time increments outOfRange exactly when compare is false,
increments older exactly when the upper bound is defined and strictly later
than the timestamp, increments newer exactly when the lower bound is defined
and strictly later than the timestamp (the timestamp falls before the lower
bound), leaves total and empty unchanged, and returns the compare result. -/
theorem time_characterization (w : MinMaxDates) (s : Stats) (t : ℤ) :
    (dateRangeItemCounter.time w s t).1.outOfRange
        = s.outOfRange + (if compare w t then 0 else 1) ∧
    (dateRangeItemCounter.time w s t).1.older
        = s.older + (match w.maxDate with
                     | some mx => if t < mx then (1 : ℤ) else 0
                     | none => 0) ∧
    (dateRangeItemCounter.time w s t).1.newer
        = s.newer + (match w.minDate with
                     | some mn => if t < mn then (1 : ℤ) else 0
                     | none => 0) ∧
    (dateRangeItemCounter.time w s t).1.total = s.total ∧
    (dateRangeItemCounter.time w s t).1.empty = s.empty ∧
    (dateRangeItemCounter.time w s t).2 = compare w t := by
  obtain ⟨mno, mxo⟩ := w
  simp only [dateRangeItemCounter.time]
  cases mno <;> cases mxo <;> split_ifs <;> simp_all <;> omega

/-- C7: once a deferred signal has settled, subsequent resolve and reject
calls are no-ops: the settlement outcome is unchanged and the resolved query
stays true. -/
theorem deferred_idempotent (V E : Type) (s : DeferredState V E) (o : V ⊕ E)
    (v : V) (e : E) (hs : s.settled = some o) (hr : s.resolvedFlag = true) :
    (deferred.resolve s v).settled = some o ∧
    (deferred.reject s e).settled = some o ∧
    deferred.resolved (deferred.resolve s v) = true ∧
    deferred.resolved (deferred.reject s e) = true := by
  simp [deferred.resolve, deferred.reject, deferred.resolved, hs]

/-- C7 witness: settle with the value 7, then resolve 9 and reject 3; the
outcome stays Sum.inl 7 and resolved stays true. -/
theorem deferred_idempotent_witness :
    (deferred.resolve (deferred.resolve (deferred.init : DeferredState ℕ ℕ) 7) 9).settled
        = some (Sum.inl 7) ∧
    (deferred.reject (deferred.resolve (deferred.init : DeferredState ℕ ℕ) 7) 3).settled
        = some (Sum.inl 7) ∧
    deferred.resolved
      (deferred.resolve (deferred.resolve (deferred.init : DeferredState ℕ ℕ) 7) 9) = true ∧
    deferred.resolved
      (deferred.reject (deferred.resolve (deferred.init : DeferredState ℕ ℕ) 7) 3) = true :=
  deferred_idempotent ℕ ℕ (deferred.resolve deferred.init 7) (Sum.inl 7) 9 3 rfl rfl

/-- C9: the resolved query is false on a fresh deferred and true after any
resolve or any reject, i.e. it reports settlement in either direction. -/
theorem resolved_reports_settlement (V E : Type) (s : DeferredState V E)
    (v : V) (e : E) :
    deferred.resolved (deferred.init : DeferredState V E) = false ∧
    deferred.resolved (deferred.resolve s v) = true ∧
    deferred.resolved (deferred.reject s e) = true := by
  simp [deferred.resolved, deferred.init, deferred.resolve, deferred.reject]

/-- C8: every counter operation leaves each of the five counters at least
its previous value; for add this holds for non-negative arguments. -/
theorem counters_monotone (w : MinMaxDates) (s : Stats) (b : Bool) (v t : ℤ)
    (hv : 0 ≤ v) :
    statsLe s (dateRangeItemCounter.empty s b) ∧
    statsLe s (dateRangeItemCounter.add s v) ∧
    statsLe s (dateRangeItemCounter.time w s t).1 := by
  refine ⟨?_, ?_, ?_⟩
  · simp only [statsLe, dateRangeItemCounter.empty]
    split_ifs <;> simp <;> omega
  · simp only [statsLe, dateRangeItemCounter.add]
    refine ⟨by omega, by omega, by omega, by omega, by omega⟩
  · obtain ⟨mno, mxo⟩ := w
    simp only [statsLe, dateRangeItemCounter.time]
    cases mno <;> cases mxo <;> split_ifs <;> simp <;> omega


/-- C8 witness: from the all-zero state, recording an empty round, a batch of
size 4 and the timestamp 2 against the window [0, 1] never decreases any
counter. -/
theorem counters_monotone_witness :
    statsLe dateRangeItemCounter.init
      (dateRangeItemCounter.empty dateRangeItemCounter.init false) ∧
    statsLe dateRangeItemCounter.init
      (dateRangeItemCounter.add dateRangeItemCounter.init 4) ∧
    statsLe dateRangeItemCounter.init
      (dateRangeItemCounter.time ⟨some 0, some 1⟩ dateRangeItemCounter.init 2).1 :=
  counters_monotone ⟨some 0, some 1⟩ dateRangeItemCounter.init false 4 2 (by omega)

/-- C4 counterexample: against the empty histogram, a sampled value of zero
is classified as changed (isChanging returns true) even though it is not
inserted, contradicting the claim that a zero sample is not classified as
changed on its iteration. -/
theorem sampleSignal_zero_counterexample :
    (sampleSignal [] (some 0)).1 = true ∧ (sampleSignal [] (some 0)).2 = [] := by
  decide

/-- C4 amended: a zero or null sample is never inserted into the histogram;
a null sample is not classified as changed; any non-null sample (zero
included) is classified as changed exactly when absent from the histogram at
test time; a non-null nonzero sample is then inserted. -/
theorem sampleSignal_characterization (histogram : List ℕ) (v : Option ℕ) :
    ((v = none ∨ v = some 0) → (sampleSignal histogram v).2 = histogram) ∧
    (v = none → (sampleSignal histogram v).1 = false) ∧
    (∀ n, v = some n → ((sampleSignal histogram v).1 = true ↔ n ∉ histogram)) ∧
    (∀ n, v = some n → n ≠ 0 →
      (sampleSignal histogram v).2 = setAdd histogram n) := by
  refine ⟨?_, ?_, ?_, ?_⟩
  · rintro (rfl | rfl)
    · rfl
    · simp [sampleSignal]
  · rintro rfl
    rfl
  · rintro n rfl
    simp only [sampleSignal, isChanging, List.all_eq_true, bne_iff_ne]
    constructor
    · intro hall hmem
      exact hall n hmem rfl
    · intro hnm x hx he
      exact hnm (he ▸ hx)
  · rintro n rfl hn
    simp [sampleSignal, hn]

/-- C4 amended witness: sampling 7 against the histogram containing 3
classifies it as changed and inserts it. -/
theorem sampleSignal_characterization_witness :
    ((sampleSignal [3] (some 7)).1 = true ↔ 7 ∉ [3]) ∧
    (sampleSignal [3] (some 7)).2 = setAdd [3] 7 :=
  ⟨(sampleSignal_characterization [3] (some 7)).2.2.1 7 rfl,
   (sampleSignal_characterization [3] (some 7)).2.2.2 7 rfl (by omega)⟩

/-- C10: an iteration whose doScroll gate answers false leaves the loop
state untouched: the stop condition (selector probe and maybeStop) is not
consulted (the ghost stopChecks counter is unchanged), the iteration counter
does not increment and the loop does not halt; consequently a run whose
doScroll gate always answers false never consults the stop condition, never
counts an iteration and never halts. -/
theorem scrollUntil_requires_doScroll (hs : Bool)
    (ms : Option (StopParam → Bool)) (env : ScrollEnv) (envs : List ScrollEnv)
    (s : ScrollState) (h1 : env.doScroll = false)
    (h2 : ∀ e ∈ envs, e.doScroll = false) :
    scrollStep hs ms env s = s ∧ scrollRun hs ms envs s = s := by
  have step : ∀ (e : ScrollEnv) (st : ScrollState), e.doScroll = false →
      scrollStep hs ms e st = st := by
    intro e st he
    simp [scrollStep, he]
  have run : ∀ (l : List ScrollEnv), (∀ e ∈ l, e.doScroll = false) →
      ∀ st, scrollRun hs ms l st = st := by
    intro l
    induction l with
    | nil => intro _ st; rfl
    | cons e rest ih =>
      intro hall st
      have he : e.doScroll = false := hall e (List.mem_cons_self e rest)
      have hrest : ∀ x ∈ rest, x.doScroll = false :=
        fun x hx => hall x (List.mem_cons_of_mem e hx)
      calc scrollRun hs ms (e :: rest) st
          = scrollRun hs ms rest (scrollStep hs ms e st) := rfl
        _ = scrollRun hs ms rest st := by rw [step e st he]
        _ = st := ih hrest st
  exact ⟨step env s h1, run envs h2 s⟩

/-- C10 witness: three idle iterations from the initial loop state change
nothing. -/
theorem scrollUntil_requires_doScroll_witness :
    scrollStep false none idleEnv scrollInit = scrollInit ∧
    scrollRun false none [idleEnv, idleEnv, idleEnv] scrollInit = scrollInit :=
  scrollUntil_requires_doScroll false none idleEnv [idleEnv, idleEnv, idleEnv]
    scrollInit rfl
    (by intro e he; simp only [List.mem_cons, List.not_mem_nil, or_false] at he
        rcases he with rfl | rfl | rfl <;> rfl)

/-- The value stored at key k after a schedule of appends depends only on
the initial value at k and on the merges that target k, applied in schedule
order. -/
theorem runAppends_key_local {K V : Type} [DecidableEq K]
    (calls : List (K × (Option V → V))) (m : K → Option V) (k : K) :
    runAppends m calls k = seqApply (perKey calls k) (m k) := by
  induction calls generalizing m with
  | nil => rfl
  | cons c rest ih =>
    have step : runAppends m (c :: rest) k = runAppends (applyAppend m c) rest k := rfl
    rw [step, ih]
    by_cases hk : c.1 = k
    · subst hk
      simp [perKey, List.filter_cons, applyAppend, seqApply]
    · have hk2 : ¬ k = c.1 := fun he => hk he.symm
      simp [perKey, List.filter_cons, applyAppend, seqApply, hk, hk2]

/-- C1: for any interleaving of the issued append calls that preserves each
key's FIFO order, the final stored value at every key equals the sequential
application of that key's merge functions in call order (no write is lost);
and two appends for distinct keys commute, so appends for distinct keys do
not constrain each other. -/
theorem append_linearizable (K V : Type) [DecidableEq K] (m : K → Option V)
    (calls sched : List (K × (Option V → V)))
    (hfifo : ∀ k, sched.filter (fun c => decide (c.1 = k))
                = calls.filter (fun c => decide (c.1 = k))) :
    (∀ k, runAppends m sched k = seqApply (perKey calls k) (m k)) ∧
    (∀ (k1 k2 : K) (f1 f2 : Option V → V) (m2 : K → Option V), k1 ≠ k2 →
      applyAppend (applyAppend m2 (k1, f1)) (k2, f2)
        = applyAppend (applyAppend m2 (k2, f2)) (k1, f1)) := by
  constructor
  · intro k
    rw [runAppends_key_local]
    unfold perKey
    rw [hfifo k]
  · intro k1 k2 f1 f2 m2 hne
    funext k
    simp only [applyAppend]
    by_cases hA : k = k2 <;> by_cases hB : k = k1
    · exact absurd (hB ▸ hA) hne
    · have : ¬ k2 = k1 := fun he => hne he.symm
      simp [hA, hB, this]
    · have : ¬ k1 = k2 := hne
      simp [hA, hB, this]
    · simp [hA, hB]

/-- C1 witness: the interleaving schedEx of callsEx keeps each key's calls
in order; the final value at key false is mergeB applied after mergeA. -/
theorem append_linearizable_witness :
    runAppends emptyMap schedEx false = seqApply (perKey callsEx false) (emptyMap false) :=
  (append_linearizable Bool ℕ emptyMap callsEx schedEx
      (by intro k; cases k <;> rfl)).1 false

/-- If a nonnegative numerator over some integer denominator exceeds a
positive rational, the denominator and the numerator are both positive. -/
theorem pos_of_div_gt (a t : ℤ) (c : ℚ) (ha : 0 ≤ a) (hc : 0 < c)
    (h : c < (a : ℚ) / (t : ℚ)) : 0 < t ∧ 0 < a := by
  rcases lt_trichotomy t 0 with hlt | heq | hgt
  · exfalso
    have hnp : (a : ℚ) / (t : ℚ) ≤ 0 := by
      apply div_nonpos_of_nonneg_of_nonpos
      · exact_mod_cast ha
      · exact_mod_cast hlt.le
    exact absurd (hc.trans h) (by linarith)
  · exfalso
    subst heq
    simp only [Int.cast_zero, div_zero] at h
    exact absurd (hc.trans h) (by linarith)
  · refine ⟨hgt, ?_⟩
    have htq : (0 : ℚ) < (t : ℚ) := by exact_mod_cast hgt
    have hposratio : (0 : ℚ) < (a : ℚ) / (t : ℚ) := hc.trans h
    have : (0 : ℚ) < (a : ℚ) := by
      by_contra hle
      push_neg at hle
      have : (a : ℚ) / (t : ℚ) ≤ 0 := div_nonpos_of_nonpos_of_nonneg hle htq.le
      linarith
    exact_mod_cast this

/-- In every counter state reachable through the API the older, empty and
outOfRange counters are nonnegative (they are only ever incremented). -/
theorem reachable_nonneg (w : MinMaxDates) (s : Stats) (h : Reachable w s) :
    0 ≤ s.older ∧ 0 ≤ s.empty ∧ 0 ≤ s.outOfRange := by
  induction h with
  | init => exact ⟨le_refl 0, le_refl 0, le_refl 0⟩
  | empty s b _ ih =>
    obtain ⟨h1, h2, h3⟩ := ih
    simp only [dateRangeItemCounter.empty]
    split_ifs <;> refine ⟨?_, ?_, ?_⟩ <;> first | omega | (simp; omega)
  | add s v _ ih =>
    obtain ⟨h1, h2, h3⟩ := ih
    simp only [dateRangeItemCounter.add]
    exact ⟨h1, h2, h3⟩
  | time s t _ ih =>
    obtain ⟨h1, h2, h3⟩ := ih
    simp only [dateRangeItemCounter.time]
    split_ifs <;> refine ⟨?_, ?_, ?_⟩ <;> first | omega | (simp; omega)

/-- The stagnation test, characterized for states with nonnegative older and
empty counters: the JS truthiness guards on older, empty and total are
equivalent to requiring a positive total. -/
theorem isOver_eq (s : Stats) (ho : 0 ≤ s.older) (he : 0 ≤ s.empty) :
    dateRangeItemCounter.isOver s = true ↔
      ((0 < s.outOfRange ∧ 0 < s.total ∧
          (s.older : ℚ) / (s.total : ℚ) > 7 / 10) ∨
       (0 < s.total ∧ (s.empty : ℚ) / (s.total : ℚ) > 1 / 5)) := by
  simp only [dateRangeItemCounter.isOver]
  split_ifs with h1 h2 h2
  all_goals
    simp only [Bool.or_eq_true, Bool.and_eq_true, decide_eq_true_eq,
      Bool.false_eq_true, or_false, false_or, and_false, gt_iff_lt]
  · constructor
    · rintro (⟨hout, hR1⟩ | hR2)
      · obtain ⟨ht, _⟩ := pos_of_div_gt s.older s.total (7 / 10) ho (by norm_num) hR1
        exact Or.inl ⟨hout, ht, hR1⟩
      · obtain ⟨ht, _⟩ := pos_of_div_gt s.empty s.total (1 / 5) he (by norm_num) hR2
        exact Or.inr ⟨ht, hR2⟩
    · rintro (⟨hout, _, hR1⟩ | ⟨_, hR2⟩)
      · exact Or.inl ⟨hout, hR1⟩
      · exact Or.inr hR2
  · constructor
    · rintro ⟨hout, hR1⟩
      obtain ⟨ht, _⟩ := pos_of_div_gt s.older s.total (7 / 10) ho (by norm_num) hR1
      exact Or.inl ⟨hout, ht, hR1⟩
    · rintro (⟨hout, _, hR1⟩ | ⟨ht, hR2⟩)
      · exact ⟨hout, hR1⟩
      · obtain ⟨_, hemp⟩ := pos_of_div_gt s.empty s.total (1 / 5) he (by norm_num) hR2
        exact absurd ⟨by omega, by omega⟩ h2
  · constructor
    · intro hR2
      obtain ⟨ht, _⟩ := pos_of_div_gt s.empty s.total (1 / 5) he (by norm_num) hR2
      exact Or.inr ⟨ht, hR2⟩
    · rintro (⟨hout, ht, hR1⟩ | ⟨_, hR2⟩)
      · obtain ⟨_, hold⟩ := pos_of_div_gt s.older s.total (7 / 10) ho (by norm_num) hR1
        exact absurd ⟨by omega, by omega⟩ h1
      · exact hR2
  · constructor
    · intro hfalse
      exact absurd hfalse (by simp)
    · rintro (⟨hout, ht, hR1⟩ | ⟨ht, hR2⟩)
      · obtain ⟨_, hold⟩ := pos_of_div_gt s.older s.total (7 / 10) ho (by norm_num) hR1
        exact absurd ⟨by omega, by omega⟩ h1
      · obtain ⟨_, hemp⟩ := pos_of_div_gt s.empty s.total (1 / 5) he (by norm_num) hR2
        exact absurd ⟨by omega, by omega⟩ h2

/-- C2: on every reachable counter state, isOver returns true if and only if
(outOfRange is positive, total is positive and older/total exceeds 7/10) or
(total is positive and empty/total exceeds 1/5). isOver reads the closure
counters without mutating them, so with no further recording operations every
subsequent call evaluates the same state and returns the same value. -/
theorem isOver_iff (w : MinMaxDates) (s : Stats) (h : Reachable w s) :
    dateRangeItemCounter.isOver s = true ↔
      ((0 < s.outOfRange ∧ 0 < s.total ∧
          (s.older : ℚ) / (s.total : ℚ) > 7 / 10) ∨
       (0 < s.total ∧ (s.empty : ℚ) / (s.total : ℚ) > 1 / 5)) := by
  obtain ⟨ho, he, _⟩ := reachable_nonneg w s h
  exact isOver_eq s ho he

/-- C2 witness: the initial all-zero counter state is reachable and isOver
is false on it, matching the characterization. -/
theorem isOver_iff_witness :
    dateRangeItemCounter.isOver dateRangeItemCounter.init = true ↔
      ((0 < dateRangeItemCounter.init.outOfRange ∧
          0 < dateRangeItemCounter.init.total ∧
          (dateRangeItemCounter.init.older : ℚ) /
            (dateRangeItemCounter.init.total : ℚ) > 7 / 10) ∨
       (0 < dateRangeItemCounter.init.total ∧
          (dateRangeItemCounter.init.empty : ℚ) /
            (dateRangeItemCounter.init.total : ℚ) > 1 / 5)) :=
  isOver_iff ⟨none, none⟩ dateRangeItemCounter.init Reachable.init

end ApifyScraper
